import Mathlib

/-!
Verification of the news-feed ingestion-and-enrichment pipeline of
`news6.py` (keyword news dashboard).  The Python functions are shallowly
embedded as executable Lean functions over `String` / `List Char`; machine
details that live in libraries (HTML parsing, URL percent-decoding,
timestamp parsing) are modelled at the granularity the pipeline relies on
and documented at their definitions.
-/

set_option maxRecDepth 8000

/-- Characters stripped by Python `str.strip()` (whitespace; we use the
usual ASCII whitespace characters, which is what the feed texts contain). -/
def pySpace (c : Char) : Bool :=
  c = ' ' || c = '\t' || c = '\n' || c = '\r'

/-- Python `s.strip()`: drop leading and trailing whitespace. -/
def pyStrip (cs : List Char) : List Char :=
  ((cs.dropWhile pySpace).reverse.dropWhile pySpace).reverse

/-- `str.strip()` lifted to `String`. -/
def pyStripStr (s : String) : String :=
  String.mk (pyStrip s.data)

/-- Helper for `splitDotSpace`: left-to-right scan splitting on the
two-character separator `". "`, exactly like Python `text.split(". ")`. -/
def splitDotSpaceAux (acc : List Char) : List Char → List (List Char)
  | [] => [acc.reverse]
  | '.' :: ' ' :: rest => acc.reverse :: splitDotSpaceAux [] rest
  | c :: rest => splitDotSpaceAux (c :: acc) rest

/-- Python `text.split(". ")` on the character list of `text`. -/
def splitDotSpace (cs : List Char) : List (List Char) :=
  splitDotSpaceAux [] cs

/-- Python `sep.join(parts)`. -/
def joinWith (sep : String) : List String → String
  | [] => ""
  | [s] => s
  | s :: rest => s ++ sep ++ joinWith sep rest

/-- Helper for `strContains`: contiguous-sublist test on character lists. -/
def isSubstrAux (needle : List Char) : List Char → Bool
  | [] => needle.isEmpty
  | c :: rest => needle.isPrefixOf (c :: rest) || isSubstrAux needle rest

/-- Python `needle in hay` (substring containment on code points). -/
def strContains (hay needle : String) : Bool :=
  isSubstrAux needle.data hay.data

/-- The candidate sentences of `simple_summarize` (`news6.py` line 45):
split on `". "` after normalizing `"!"` to `"."`, strip each fragment,
keep those longer than 15 characters. -/
def candidateSentences (text : String) : List String :=
  ((splitDotSpace (text.data.map (fun c => if c = '!' then '.' else c))).map
      (fun cs => String.mk (pyStrip cs))).filter
    (fun s => 15 < s.length)

/-- The body of `simple_summarize` past the length gate: either truncate
the original text to 300 characters (ellipsis when truncated) or join the
first and middle candidate with `". "`.  Transcribes `news6.py`
lines 44-55. -/
def summarizeBody (text : String) (num_sent : Nat) : String :=
  let sentences := candidateSentences text
  if sentences.length ≤ num_sent then
    if 300 < text.length then String.mk (text.data.take 300) ++ "..." else text
  else
    let selected :=
      [sentences.getD 0 ""] ++
        (if 2 < sentences.length then [sentences.getD (sentences.length / 2) ""] else [])
    joinWith ". " selected

/-- `simple_summarize` from `news6.py` lines 39-55: the gate is
`if not text or len(text.strip()) < 30`, i.e. the STRIPPED length is
measured. -/
def simple_summarize (text : String) (num_sent : Nat := 2) : String :=
  if text = "" || (pyStripStr text).length < 30 then "요약 불가 (본문 부족)"
  else summarizeBody text num_sent

/-- Summarize as worded by the claim: the sentinel is returned "when the
text is empty or shorter than 30 characters", i.e. the RAW length of the
input is measured; the rest of the algorithm is as in the source. -/
def simple_summarize_claimed (text : String) (num_sent : Nat := 2) : String :=
  if text = "" || text.length < 30 then "요약 불가 (본문 부족)"
  else summarizeBody text num_sent

/-- Hangul-syllable test, the character class `[가-힣]` of the tokenizer. -/
def isHangul (c : Char) : Bool :=
  '가' ≤ c && c ≤ '힣'

/-- Helper for `hangulTokens`: maximal runs of Hangul syllables, in order. -/
def hangulRunsAux (acc : List Char) : List Char → List (List Char)
  | [] => if acc.isEmpty then [] else [acc.reverse]
  | c :: rest =>
    if isHangul c then hangulRunsAux (c :: acc) rest
    else if acc.isEmpty then hangulRunsAux [] rest
    else acc.reverse :: hangulRunsAux [] rest

/-- Python `re.findall(r"[가-힣]{2,}", text)`: the maximal runs of Hangul
syllables of length at least 2, in order of appearance. -/
def hangulTokens (text : String) : List String :=
  ((hangulRunsAux [] text.data).filter (fun r => 2 ≤ r.length)).map
    (fun cs => String.mk cs)

/-- The fixed stop-word set of `extract_keywords` (`news6.py` lines 59-60). -/
def KOREAN_STOPWORDS : List String :=
  ["있다", "하다", "수", "등", "및", "에서", "으로", "이번",
   "관한", "하여", "대한", "관련", "한", "더", "있으며", "따라", "등의"]

/-- Tokens of `extract_keywords` after the stop-word / length filter
(`words = [w for w in words if w not in KOREAN_STOPWORDS and len(w) > 1]`). -/
def keywordTokens (text : String) : List String :=
  (hangulTokens text).filter
    (fun w => !(KOREAN_STOPWORDS.contains w) && 1 < w.length)

/-- Helper: first-encounter deduplication with an accumulator of seen keys. -/
def dedupFirstAux (seen : List String) : List String → List String
  | [] => []
  | w :: ws =>
    if seen.contains w then dedupFirstAux seen ws
    else w :: dedupFirstAux (w :: seen) ws

/-- Python `Counter(words)` viewed as an association list: distinct words
in first-encounter order (dict insertion order), each with its count. -/
def counterItems (ws : List String) : List (String × Nat) :=
  (dedupFirstAux [] ws).map (fun w => (w, ws.count w))

/-- Stable descending insertion by count: an element passes over strictly
larger counts only, so among equal counts the original order is kept. -/
def insertDesc (x : String × Nat) : List (String × Nat) → List (String × Nat)
  | [] => [x]
  | y :: ys => if y.2 ≤ x.2 then x :: y :: ys else y :: insertDesc x ys

/-- Stable sort by descending count, matching `Counter.most_common`
(CPython: `sorted(items, key=count, reverse=True)`, a stable sort over
dict insertion order). -/
def sortDesc : List (String × Nat) → List (String × Nat)
  | [] => []
  | x :: xs => insertDesc x (sortDesc xs)

/-- `extract_keywords` from `news6.py` lines 57-65. -/
def extract_keywords (text : String) (n : Nat := 5) : String :=
  let words := keywordTokens text
  if words.isEmpty then "키워드 없음"
  else joinWith ", " (((sortDesc (counterItems words)).take n).map Prod.fst)

/-- The fixed positive word list of `simple_sentiment` (line 69). -/
def positive_words : List String :=
  ["좋다", "훌륭", "성공", "발전", "혁신", "개선", "증가", "상승", "긍정"]

/-- The fixed negative word list of `simple_sentiment` (line 70). -/
def negative_words : List String :=
  ["나쁘다", "문제", "실패", "우려", "논란", "감소", "하락", "부정", "위험"]

/-- `sum(1 for word in positive_words if word in text)`: the number of
listed positive words occurring in `text` as substrings. -/
def posCount (text : String) : Nat :=
  (positive_words.filter (fun w => strContains text w)).length

/-- `sum(1 for word in negative_words if word in text)`. -/
def negCount (text : String) : Nat :=
  (negative_words.filter (fun w => strContains text w)).length

/-- `simple_sentiment` from `news6.py` lines 67-80. -/
def simple_sentiment (text : String) : String :=
  if negCount text < posCount text then "긍정"
  else if posCount text < negCount text then "부정"
  else "중립"

/-- `analyze_tone` from `news6.py` lines 82-89. -/
def analyze_tone (text : String) : String :=
  if ["분석", "연구", "조사", "데이터", "통계"].any (fun w => strContains text w) then "분석적"
  else if ["놀라", "충격", "감동", "기쁘", "슬프"].any (fun w => strContains text w) then "감정적"
  else "정보성"

/-- `generate_tags` from `news6.py` lines 91-100. -/
def generate_tags (text : String) : String :=
  let tags :=
    (if strContains text "기술" || strContains text "AI" then ["#기술동향"] else []) ++
    (if strContains text "시장" || strContains text "수요" then ["#시장분석"] else []) ++
    (if strContains text "논란" || strContains text "문제" then ["#이슈"] else [])
  if tags.isEmpty then "#일반" else joinWith " " tags

/-- `generate_opinion` from `news6.py` lines 102-116: dictionary lookups
with the neutral and informational phrases as defaults. -/
def generate_opinion (sentiment tone : String) : String :=
  let senti_txt :=
    if sentiment = "긍정" then "🟢 긍정적인 관점"
    else if sentiment = "부정" then "🔴 비판적인 관점"
    else "🟡 중립적인 관점"
  let tone_txt :=
    if tone = "정보성" then "ℹ️ 정보 전달"
    else if tone = "감정적" then "💬 감정 표현"
    else if tone = "분석적" then "🧐 분석적 접근"
    else "ℹ️ 정보 전달"
  senti_txt ++ " + " ++ tone_txt ++ "의 뉴스입니다."

/-- Helper for `clean_text`: drop markup tags, emitting a separator space
at a closing tag.  The `Bool` argument is true while inside a `<...>` tag. -/
def stripTagsAux : Bool → List Char → List Char
  | _, [] => []
  | true, c :: rest =>
    if c = '>' then ' ' :: stripTagsAux false rest else stripTagsAux true rest
  | false, c :: rest =>
    if c = '<' then stripTagsAux true rest else c :: stripTagsAux false rest

/-- `clean_text` from `news6.py` lines 35-37.  Models
`BeautifulSoup(html).get_text(separator=" ").strip()`: markup tags are
replaced by a separator space and the result is stripped. -/
def clean_text (html : String) : String :=
  String.mk (pyStrip (stripTagsAux false html.data))

/-- Numeric value of a hexadecimal digit character. -/
def hexVal (c : Char) : Nat :=
  if '0' ≤ c && c ≤ '9' then c.toNat - 48
  else if 'a' ≤ c && c ≤ 'f' then c.toNat - 87
  else c.toNat - 55

/-- Hexadecimal digit test. -/
def isHexDig (c : Char) : Bool :=
  ('0' ≤ c && c ≤ '9') || ('a' ≤ c && c ≤ 'f') || ('A' ≤ c && c ≤ 'F')

/-- Models `urllib.parse.unquote_plus` for query components whose
percent-escapes are ASCII: `+` becomes a space and `%XY` with `XY` a hex
byte below 0x80 decodes to that character; anything else passes through. -/
def unquotePlusAux : List Char → List Char
  | [] => []
  | '+' :: rest => ' ' :: unquotePlusAux rest
  | '%' :: h1 :: h2 :: rest =>
    if isHexDig h1 && isHexDig h2 && hexVal h1 * 16 + hexVal h2 < 128 then
      Char.ofNat (hexVal h1 * 16 + hexVal h2) :: unquotePlusAux rest
    else '%' :: unquotePlusAux (h1 :: h2 :: rest)
  | c :: rest => c :: unquotePlusAux rest

/-- Characters of `cs` strictly before the first occurrence of `stop`. -/
def takeBefore (stop : Char) : List Char → List Char
  | [] => []
  | c :: rest => if c = stop then [] else c :: takeBefore stop rest

/-- Characters of `cs` strictly after the first occurrence of `mark`
(empty when `mark` does not occur). -/
def afterFirst (mark : Char) : List Char → List Char
  | [] => []
  | c :: rest => if c = mark then rest else afterFirst mark rest

/-- The query component as `urllib.parse.urlparse` computes it: the
fragment (after the first `#`) is removed first, then the query is
whatever follows the first `?` of the remainder. -/
def queryOf (url : List Char) : List Char :=
  afterFirst '?' (takeBefore '#' url)

/-- Helper for `splitOnChar`. -/
def splitOnCharAux (sep : Char) (acc : List Char) : List Char → List (List Char)
  | [] => [acc.reverse]
  | c :: rest =>
    if c = sep then acc.reverse :: splitOnCharAux sep [] rest
    else splitOnCharAux sep (c :: acc) rest

/-- Python `s.split(sep)` for a one-character separator. -/
def splitOnChar (sep : Char) (cs : List Char) : List (List Char) :=
  splitOnCharAux sep [] cs

/-- Split a query field at its first `=` (Python `field.partition('=')`);
`none` when the field has no `=`. -/
def breakAtEq : List Char → Option (List Char × List Char)
  | [] => none
  | '=' :: rest => some ([], rest)
  | c :: rest => (breakAtEq rest).map (fun p => (c :: p.1, p.2))

/-- Models `urllib.parse.parse_qs` as the ordered list of name/value
pairs: fields are split on `&`, a field without `=` or with a blank value
is dropped (`keep_blank_values=False`), and names and values are
unquoted. -/
def parse_qs_pairs (query : List Char) : List (String × String) :=
  (splitOnChar '&' query).filterMap (fun field =>
    match breakAtEq field with
    | none => none
    | some (n, v) =>
      if v.isEmpty then none
      else some (String.mk (unquotePlusAux n), String.mk (unquotePlusAux v)))

/-- `query_params['url'][0]`: the first value recorded for `name`. -/
def firstParamValue (pairs : List (String × String)) (name : String) : Option String :=
  (pairs.find? (fun p => p.1 == name)).map (fun p => p.2)

/-- The guard of the redirect-link branch (`news6.py` line 140):
`'news.google.com' in original_link and 'url=' in original_link`. -/
def googleWrapped (link : String) : Bool :=
  strContains link "news.google.com" && strContains link "url="

/-- The embedded `url` query parameter of a link, when present. -/
def urlParamOf (link : String) : Option String :=
  firstParamValue (parse_qs_pairs (queryOf link.data)) "url"

/-- Link de-referencing of `fetch_news` (`news6.py` lines 136-152): a
Google-News-wrapped link with a `url` query parameter resolves to the
embedded URL; every other case (including extraction failure) keeps the
original link. -/
def extractLink (original : String) : String :=
  if googleWrapped original then
    match urlParamOf original with
    | some u => u
    | none => original
  else original

/-- One feed entry as `feedparser` returns it: `published` and `summary`
are `none` when the feed omits them. -/
structure FeedEntry where
  title : String
  link : String
  published : Option String
  summary : Option String
deriving DecidableEq

/-- One row of the collected dataframe (`news6.py` lines 167-179). -/
structure Row where
  keyword : String
  title : String
  link : String
  date : String
  body : String
  summary : String
  keywordsExtracted : String
  sentiment : String
  tone : String
  tags : String
  opinion : String
deriving DecidableEq

/-- `fulltext` of an entry (`news6.py` lines 155-158): the cleaned summary
when non-empty, else the title. -/
def fulltextOf (e : FeedEntry) : String :=
  let preview := clean_text (e.summary.getD "")
  if preview = "" then e.title else preview

/-- The six derived fields of the enrichment step, as a function of the
article text alone (`news6.py` lines 160-165). -/
def enrichFields (text : String) : List String :=
  [simple_summarize text 2, extract_keywords text 5, simple_sentiment text,
   analyze_tone text, generate_tags text,
   generate_opinion (simple_sentiment text) (analyze_tone text)]

/-- Per-entry processing of `fetch_news` (`news6.py` lines 133-179):
`nowStr` is `datetime.now().strftime("%Y-%m-%d")`, the default for a
missing published date. -/
def processEntry (keyword nowStr : String) (e : FeedEntry) : Row :=
  { keyword := keyword
    title := e.title
    link := extractLink e.link
    date := e.published.getD nowStr
    body := fulltextOf e
    summary := simple_summarize (fulltextOf e) 2
    keywordsExtracted := extract_keywords (fulltextOf e) 5
    sentiment := simple_sentiment (fulltextOf e)
    tone := analyze_tone (fulltextOf e)
    tags := generate_tags (fulltextOf e)
    opinion := generate_opinion (simple_sentiment (fulltextOf e)) (analyze_tone (fulltextOf e)) }

/-- The derived (enrichment) fields of a row. -/
def derivedOf (r : Row) : List String :=
  [r.summary, r.keywordsExtracted, r.sentiment, r.tone, r.tags, r.opinion]

/-- Outcome of `requests.get` + `feedparser.parse` for one keyword:
either the transport layer raised (timeout, connection error) or a
response with a status code and parsed entries came back. -/
inductive FetchResponse where
  | failure (msg : String)
  | success (status : Nat) (entries : List FeedEntry)
deriving DecidableEq

/-- `fetch_news` from `news6.py` lines 119-187, as a function of the
network outcome.  The first component is the returned article list, the
second the list of user-facing error messages emitted (`st.error`); a
non-200 status returns an empty frame with no message, a raised transport
error is caught and reported. -/
def fetch_news (keyword : String) (resp : FetchResponse) (maxItems : Nat)
    (nowStr : String) : List Row × List String :=
  match resp with
  | .failure msg => ([], ["뉴스 수집 실패: " ++ msg])
  | .success status entries =>
    if status ≠ 200 then ([], [])
    else ((entries.take maxItems).map (processEntry keyword nowStr), [])

/-- Per-keyword results of the collection loop (`news6.py` lines 200-204),
in keyword-iteration order.  An empty frame is skipped by the loop before
concatenation, which leaves the concatenation unchanged, so the join of
this list is exactly `pd.concat(df_list)`. -/
def keywordRows (ks : List String) (net : String → FetchResponse)
    (maxItems : Nat) (nowStr : String) : List (List Row) :=
  ks.map (fun k => (fetch_news k (net k) maxItems nowStr).1)

/-- Helper for `dedupByLink` carrying the set of links already kept. -/
def dedupByLinkAux (seen : List String) : List Row → List Row
  | [] => []
  | r :: rest =>
    if seen.contains r.link then dedupByLinkAux seen rest
    else r :: dedupByLinkAux (r.link :: seen) rest

/-- `drop_duplicates(subset=["링크"])` (`news6.py` line 209): keep the
first row for each link. -/
def dedupByLink (rows : List Row) : List Row :=
  dedupByLinkAux [] rows

/-- The whole collection run: fetch per keyword in order, concatenate,
deduplicate by link (`news6.py` lines 200-209). -/
def collectRun (ks : List String) (net : String → FetchResponse)
    (maxItems : Nat) (nowStr : String) : List Row :=
  dedupByLink (keywordRows ks net maxItems nowStr).flatten

/-- Date filtering (`news6.py` lines 220-225).  `parse` models
`pd.to_datetime(·, errors="coerce")`: `none` is `NaT`, and a comparison
against `NaT` is false, so rows with unparseable dates are dropped by an
active bound.  The lower-bound filter is applied first, then the upper. -/
def dateFilter (parse : String → Option Int) (lo hi : Option Int)
    (rows : List Row) : List Row :=
  let rows1 :=
    match lo with
    | none => rows
    | some l => rows.filter (fun r =>
        match parse r.date with
        | some d => decide (l ≤ d)
        | none => false)
  match hi with
  | none => rows1
  | some u => rows1.filter (fun r =>
      match parse r.date with
      | some d => decide (d ≤ u)
      | none => false)

/-- True when the character list contains two consecutive Hangul
syllables, i.e. when the tokenizer of `extract_keywords` can produce any
token at all. -/
def hasHangulPair : List Char → Bool
  | c1 :: c2 :: rest => (isHangul c1 && isHangul c2) || hasHangulPair (c2 :: rest)
  | _ => false

/-- A concrete input for the C1 gate: three letters padded with 30
trailing spaces, so the raw length is 33 but the stripped length is 3. -/
def c1Input : String :=
  String.mk ('a' :: 'b' :: 'c' :: List.replicate 30 ' ')

/-- Row constructor for concrete test data (enrichment fields blank). -/
def mkRow (k t l d : String) : Row :=
  { keyword := k, title := t, link := l, date := d, body := "", summary := "",
    keywordsExtracted := "", sentiment := "", tone := "", tags := "", opinion := "" }

/-- Two rows sharing a link, fetched under different keywords. -/
def rowX : Row := mkRow "AI" "기사1" "https://example.com/a" "2025-01-02"

/-- Second row with the duplicate link. -/
def rowY : Row := mkRow "로봇" "기사2" "https://example.com/a" "2025-01-03"

/-- Row whose date string is not parseable. -/
def rowB : Row := mkRow "AI" "기사3" "https://example.com/b" "unknown"

/-- A concrete best-effort date parser for witnesses: only the two
dates appearing in the test rows parse. -/
def parse0 (s : String) : Option Int :=
  if s = "2025-01-02" then some 2 else if s = "2025-01-03" then some 3 else none

/-- A concrete feed entry. -/
def entry0 : FeedEntry :=
  { title := "기사 제목", link := "https://example.com/a",
    published := some "2025-01-02", summary := none }

/-- A Google-News-wrapped link with an embedded `url` parameter. -/
def gnewsLink : String :=
  "https://news.google.com/rss/articles/x?url=https://example.com/story&ct=ga"

/-!  Helper lemmas about the stable descending sort used by
`extract_keywords`. -/

theorem mem_insertDesc {x y : String × Nat} :
    ∀ {l : List (String × Nat)}, y ∈ insertDesc x l → y = x ∨ y ∈ l := by
  intro l
  induction l with
  | nil => simp [insertDesc]
  | cons a as ih =>
    simp only [insertDesc]
    by_cases h : a.2 ≤ x.2
    · rw [if_pos h]
      intro hy
      rcases List.mem_cons.mp hy with rfl | hy'
      · exact Or.inl rfl
      · exact Or.inr hy'
    · rw [if_neg h]
      intro hy
      rcases List.mem_cons.mp hy with rfl | hy'
      · exact Or.inr (List.mem_cons_self _ _)
      · rcases ih hy' with rfl | h3
        · exact Or.inl rfl
        · exact Or.inr (List.mem_cons_of_mem _ h3)

theorem pairwise_insertDesc {x : String × Nat} :
    ∀ {l : List (String × Nat)},
      List.Pairwise (fun a b => b.2 ≤ a.2) l →
      List.Pairwise (fun a b => b.2 ≤ a.2) (insertDesc x l) := by
  intro l
  induction l with
  | nil => intro _; simp [insertDesc]
  | cons a as ih =>
    intro hl
    rcases List.pairwise_cons.mp hl with ⟨ha, has⟩
    simp only [insertDesc]
    by_cases h : a.2 ≤ x.2
    · rw [if_pos h]
      refine List.pairwise_cons.mpr ⟨?_, hl⟩
      intro b hb
      rcases List.mem_cons.mp hb with rfl | hb'
      · exact h
      · exact le_trans (ha b hb') h
    · rw [if_neg h]
      refine List.pairwise_cons.mpr ⟨?_, ih has⟩
      intro b hb
      rcases mem_insertDesc hb with rfl | hb'
      · exact le_of_lt (Nat.lt_of_not_le h)
      · exact ha b hb'

theorem perm_insertDesc (x : String × Nat) :
    ∀ (l : List (String × Nat)), (insertDesc x l).Perm (x :: l) := by
  intro l
  induction l with
  | nil => exact List.Perm.refl _
  | cons a as ih =>
    simp only [insertDesc]
    by_cases h : a.2 ≤ x.2
    · rw [if_pos h]
    · rw [if_neg h]
      exact (ih.cons a).trans (List.Perm.swap x a as)

theorem sortDesc_perm : ∀ (l : List (String × Nat)), (sortDesc l).Perm l := by
  intro l
  induction l with
  | nil => exact List.Perm.refl _
  | cons a as ih =>
    simp only [sortDesc]
    exact (perm_insertDesc a (sortDesc as)).trans (ih.cons a)

theorem sortDesc_pairwise :
    ∀ (l : List (String × Nat)),
      List.Pairwise (fun a b => b.2 ≤ a.2) (sortDesc l) := by
  intro l
  induction l with
  | nil => simp [sortDesc]
  | cons a as ih =>
    simp only [sortDesc]
    exact pairwise_insertDesc ih

theorem filter_insertDesc {x : String × Nat} {c : Nat} :
    ∀ (l : List (String × Nat)),
      (insertDesc x l).filter (fun p => p.2 == c)
        = (if x.2 = c then [x] else []) ++ l.filter (fun p => p.2 == c) := by
  intro l
  induction l with
  | nil =>
    by_cases h : x.2 = c <;> simp [insertDesc, List.filter_cons, h]
  | cons a as ih =>
    simp only [insertDesc]
    by_cases h : a.2 ≤ x.2
    · rw [if_pos h]
      by_cases hx : x.2 = c <;> simp [List.filter_cons, hx]
    · rw [if_neg h]
      by_cases hx : x.2 = c <;> by_cases ha : a.2 = c
      · exact absurd (by omega) h
      · simp [List.filter_cons, hx, ha, ih]
      · simp [List.filter_cons, hx, ha, ih]
      · simp [List.filter_cons, hx, ha, ih]

theorem sortDesc_filter {c : Nat} :
    ∀ (l : List (String × Nat)),
      (sortDesc l).filter (fun p => p.2 == c) = l.filter (fun p => p.2 == c) := by
  intro l
  induction l with
  | nil => rfl
  | cons a as ih =>
    simp only [sortDesc]
    rw [filter_insertDesc]
    by_cases h : a.2 = c <;> simp [List.filter_cons, h, ih]

/-!  Helper lemmas about link deduplication. -/

theorem contains_false_of_eq_false {seen : List String} {s : String}
    (hc : seen.contains s = false) : ¬(seen.contains s = true) := by
  simp only [hc]
  exact Bool.false_ne_true

theorem mem_dedupByLinkAux {l : List Row} :
    ∀ {seen : List String} {r : Row},
      r ∈ dedupByLinkAux seen l → r ∈ l ∧ seen.contains r.link = false := by
  induction l with
  | nil => intro seen r h; simp [dedupByLinkAux] at h
  | cons a rest ih =>
    intro seen r h
    cases hc : seen.contains a.link with
    | true =>
      rw [dedupByLinkAux, if_pos hc] at h
      obtain ⟨h1, h2⟩ := ih h
      exact ⟨List.mem_cons_of_mem _ h1, h2⟩
    | false =>
      rw [dedupByLinkAux, if_neg (contains_false_of_eq_false hc)] at h
      rcases List.mem_cons.mp h with heq | h'
      · subst heq
        exact ⟨List.mem_cons_self _ _, hc⟩
      · obtain ⟨h1, h2⟩ := ih h'
        simp only [List.contains_cons, Bool.or_eq_false_iff] at h2
        exact ⟨List.mem_cons_of_mem _ h1, h2.2⟩

theorem nodup_dedupByLinkAux {l : List Row} :
    ∀ {seen : List String}, ((dedupByLinkAux seen l).map Row.link).Nodup := by
  induction l with
  | nil => intro seen; simp [dedupByLinkAux]
  | cons a rest ih =>
    intro seen
    cases hc : seen.contains a.link with
    | true =>
      rw [dedupByLinkAux, if_pos hc]
      exact ih
    | false =>
      rw [dedupByLinkAux, if_neg (contains_false_of_eq_false hc)]
      simp only [List.map_cons, List.nodup_cons]
      refine ⟨?_, ih⟩
      intro hmem
      rcases List.mem_map.mp hmem with ⟨r, hr, he⟩
      obtain ⟨_, h2⟩ := mem_dedupByLinkAux hr
      simp only [List.contains_cons, Bool.or_eq_false_iff] at h2
      rw [he] at h2
      simp at h2

theorem find_dedupByLinkAux {l : List Row} :
    ∀ {seen : List String} {r : Row},
      r ∈ dedupByLinkAux seen l →
      l.find? (fun b => b.link == r.link) = some r := by
  induction l with
  | nil => intro seen r h; simp [dedupByLinkAux] at h
  | cons a rest ih =>
    intro seen r h
    cases hc : seen.contains a.link with
    | true =>
      rw [dedupByLinkAux, if_pos hc] at h
      obtain ⟨_, h2⟩ := mem_dedupByLinkAux h
      have hne : (a.link == r.link) = false := by
        cases hbe : a.link == r.link with
        | false => rfl
        | true =>
          rw [eq_of_beq hbe] at hc
          rw [hc] at h2
          exact absurd h2 (by simp)
      rw [List.find?_cons, hne]
      exact ih h
    | false =>
      rw [dedupByLinkAux, if_neg (contains_false_of_eq_false hc)] at h
      rcases List.mem_cons.mp h with heq | h'
      · subst heq
        rw [List.find?_cons, beq_self_eq_true]
      · obtain ⟨_, h2⟩ := mem_dedupByLinkAux h'
        simp only [List.contains_cons, Bool.or_eq_false_iff] at h2
        have hne : (a.link == r.link) = false := by
          cases hbe : a.link == r.link with
          | false => rfl
          | true =>
            have h21 := h2.1
            rw [eq_of_beq hbe] at h21
            simp at h21
        rw [List.find?_cons, hne]
        exact ih h'

theorem link_survives_dedupAux {l : List Row} :
    ∀ {seen : List String} {r : Row},
      r ∈ l → seen.contains r.link = false →
      ∃ r2 ∈ dedupByLinkAux seen l, r2.link = r.link := by
  induction l with
  | nil => intro seen r h _; simp at h
  | cons a rest ih =>
    intro seen r hr hseen
    cases hc : seen.contains a.link with
    | true =>
      rw [dedupByLinkAux, if_pos hc]
      rcases List.mem_cons.mp hr with heq | hr'
      · subst heq
        rw [hseen] at hc
        exact absurd hc (by simp)
      · exact ih hr' hseen
    | false =>
      rw [dedupByLinkAux, if_neg (contains_false_of_eq_false hc)]
      rcases List.mem_cons.mp hr with heq | hr'
      · subst heq
        exact ⟨r, List.mem_cons_self _ _, rfl⟩
      · by_cases hl : r.link = a.link
        · exact ⟨a, List.mem_cons_self _ _, hl.symm⟩
        · have hseen' : (a.link :: seen).contains r.link = false := by
            simp only [List.contains_cons, Bool.or_eq_false_iff]
            constructor
            · exact beq_eq_false_iff_ne.mpr hl
            · exact hseen
          obtain ⟨r2, hr2, he2⟩ := ih hr' hseen'
          exact ⟨r2, List.mem_cons_of_mem _ hr2, he2⟩

/-!  Helper lemmas about the Hangul tokenizer. -/

theorem hasHangulPair_tail {c : Char} {rest : List Char} :
    hasHangulPair (c :: rest) = false → hasHangulPair rest = false := by
  intro h
  cases rest with
  | nil => rfl
  | cons d ds =>
    rw [hasHangulPair, Bool.or_eq_false_iff] at h
    exact h.2

theorem hasHangulPair_head {c d : Char} {ds : List Char} :
    hasHangulPair (c :: d :: ds) = false → isHangul c = true → isHangul d = false := by
  intro h hH
  rw [hasHangulPair, Bool.or_eq_false_iff, Bool.and_eq_false_iff] at h
  rcases h.1 with h1 | h1
  · rw [hH] at h1
    exact absurd h1 (by simp)
  · exact h1

theorem bool_ne_true {b : Bool} (h : b = false) : ¬(b = true) := by
  simp [h]

theorem hangulRunsAux_short :
    ∀ (cs acc : List Char), hasHangulPair cs = false → acc.length ≤ 1 →
      (∀ d ds, cs = d :: ds → acc ≠ [] → isHangul d = false) →
      ∀ t ∈ hangulRunsAux acc cs, t.length ≤ 1 := by
  intro cs
  induction cs with
  | nil =>
    intro acc _ hlen _ t ht
    rw [hangulRunsAux] at ht
    cases hacc : acc.isEmpty with
    | true =>
      rw [if_pos hacc] at ht
      simp at ht
    | false =>
      rw [if_neg (bool_ne_true hacc), List.mem_singleton] at ht
      subst ht
      simpa using hlen
  | cons c rest ih =>
    intro acc hp hlen hhead t ht
    rw [hangulRunsAux] at ht
    cases hH : isHangul c with
    | true =>
      rw [if_pos hH] at ht
      have hacc : acc = [] := by
        by_contra hne
        have hd := hhead c rest rfl hne
        rw [hH] at hd
        exact absurd hd (by simp)
      subst hacc
      refine ih [c] (hasHangulPair_tail hp) (by simp) ?_ t ht
      intro d ds hrest _
      subst hrest
      exact hasHangulPair_head hp hH
    | false =>
      rw [if_neg (bool_ne_true hH)] at ht
      cases hacc : acc.isEmpty with
      | true =>
        rw [if_pos hacc] at ht
        exact ih [] (hasHangulPair_tail hp) (by simp) (by intro d ds _ hne; exact absurd rfl hne) t ht
      | false =>
        rw [if_neg (bool_ne_true hacc)] at ht
        rcases List.mem_cons.mp ht with heq | ht'
        · subst heq
          simpa using hlen
        · exact ih [] (hasHangulPair_tail hp) (by simp) (by intro d ds _ hne; exact absurd rfl hne) t ht'

/-- C1 (counterexample): the claim gates on the raw length of the text
("empty or shorter than 30 characters"), but `simple_summarize` gates on
the stripped length.  On three letters padded with 30 trailing spaces the
input is non-empty and 33 characters long, so by the claim the summarizer
should proceed past the gate (and, having no candidate longer than 15
characters, return the text itself), yet the code returns the
"insufficient content" sentinel. -/
theorem simple_summarize_gate_counterexample :
    simple_summarize c1Input 2 = "요약 불가 (본문 부족)"
    ∧ simple_summarize_claimed c1Input 2 = c1Input
    ∧ c1Input ≠ ""
    ∧ ¬(c1Input.length < 30)
    ∧ simple_summarize c1Input 2 ≠ simple_summarize_claimed c1Input 2 := by
  refine ⟨by decide, by decide, by decide, by decide, by decide⟩

/-- C1 (amended): `simple_summarize` returns the fixed "insufficient
content" sentinel exactly when the text is empty or its
whitespace-stripped length is shorter than 30 characters; otherwise it
splits the text on `". "` (with `"!"` normalized to `"."`), keeps only
stripped fragments longer than 15 characters as candidates, returns the
original text truncated to 300 characters (with an ellipsis marker when
truncated) when the candidate count is at most the target, and otherwise
joins the first candidate with the middle-indexed candidate by `". "`
whenever more than two candidates exist. -/
theorem simple_summarize_amended_spec (text : String) (n : Nat) :
    ((text = "" ∨ (pyStripStr text).length < 30) →
      simple_summarize text n = "요약 불가 (본문 부족)")
    ∧ (text ≠ "" → ¬((pyStripStr text).length < 30) →
      simple_summarize text n = summarizeBody text n)
    ∧ ((candidateSentences text).length ≤ n →
      summarizeBody text n
        = (if 300 < text.length then String.mk (text.data.take 300) ++ "..." else text))
    ∧ (n < (candidateSentences text).length →
      summarizeBody text n
        = joinWith ". "
            ([(candidateSentences text).getD 0 ""] ++
              (if 2 < (candidateSentences text).length then
                [(candidateSentences text).getD ((candidateSentences text).length / 2) ""]
              else []))) := by
  refine ⟨?_, ?_, ?_, ?_⟩
  · intro h
    rcases h with h | h <;> simp [simple_summarize, h]
  · intro h1 h2
    simp [simple_summarize, h1, h2]
  · intro h
    simp [summarizeBody, h]
  · intro h
    rw [summarizeBody]
    simp only [Nat.not_le.mpr h, if_false]

/-- Witness for the amended C1 theorem at the concrete padded input. -/
theorem simple_summarize_amended_witness :
    simple_summarize c1Input 2 = "요약 불가 (본문 부족)" :=
  (simple_summarize_amended_spec c1Input 2).1 (Or.inr (by decide))

/-- C2: `simple_sentiment` counts how many of the fixed positive-list
words occur in the text as substrings against the fixed negative-list
words; the majority wins and an exact tie yields the neutral label, and
the two concrete example texts classify as positive and negative. -/
theorem simple_sentiment_spec :
    (∀ text : String,
      (negCount text < posCount text → simple_sentiment text = "긍정")
      ∧ (posCount text < negCount text → simple_sentiment text = "부정")
      ∧ (posCount text = negCount text → simple_sentiment text = "중립"))
    ∧ simple_sentiment "이 기술은 혁신적이고 발전적이다" = "긍정"
    ∧ simple_sentiment "이 정책은 문제와 논란이 많다" = "부정" := by
  refine ⟨fun text => ⟨?_, ?_, ?_⟩, by decide, by decide⟩
  · intro h
    rw [simple_sentiment, if_pos h]
  · intro h
    rw [simple_sentiment, if_neg (Nat.lt_asymm h), if_pos h]
  · intro h
    rw [simple_sentiment, if_neg (by omega), if_neg (by omega)]

/-- Witness for C2 at a concrete positive text. -/
theorem simple_sentiment_witness : simple_sentiment "좋다" = "긍정" :=
  (simple_sentiment_spec.1 "좋다").1 (by decide)

/-- C3: after concatenating the per-keyword results in keyword-iteration
order, deduplication by link keeps each link at most once; each retained
row is the first row with its link in the concatenated order (so a
duplicated link is attributed to the first keyword whose entry carried
it), and every fetched link is still represented. -/
theorem dedup_by_link_spec (results : List (List Row)) :
    ((dedupByLink results.flatten).map Row.link).Nodup
    ∧ (∀ r ∈ dedupByLink results.flatten,
        results.flatten.find? (fun b => b.link == r.link) = some r)
    ∧ (∀ r ∈ results.flatten,
        ∃ r2 ∈ dedupByLink results.flatten, r2.link = r.link) := by
  refine ⟨nodup_dedupByLinkAux, ?_, ?_⟩
  · intro r hr
    exact find_dedupByLinkAux hr
  · intro r hr
    exact link_survives_dedupAux hr rfl

/-- Witness for C3: with two keywords fetching the same link, the
deduplicated set keeps the first keyword's row. -/
theorem dedup_by_link_witness :
    [[rowX], [rowY]].flatten.find? (fun b => b.link == rowX.link) = some rowX :=
  (dedup_by_link_spec [[rowX], [rowY]]).2.1 rowX (by decide)

/-- C4: with no bound set the date filter is the identity; with either
bound set, a row passes exactly when its date parses and the parsed value
lies within the set bounds (inclusive), so rows with unparseable dates are
excluded whenever a bound is active. -/
theorem date_filter_spec (parse : String → Option Int) (lo hi : Option Int)
    (rows : List Row) (r : Row) :
    (lo = none → hi = none → dateFilter parse lo hi rows = rows)
    ∧ ((lo ≠ none ∨ hi ≠ none) →
        (r ∈ dateFilter parse lo hi rows ↔
          r ∈ rows ∧ ∃ d, parse r.date = some d
            ∧ (∀ l, lo = some l → l ≤ d) ∧ (∀ u, hi = some u → d ≤ u))) := by
  cases lo with
  | none =>
    cases hi with
    | none =>
      refine ⟨fun _ _ => rfl, ?_⟩
      intro h
      rcases h with h | h <;> exact absurd rfl h
    | some u =>
      refine ⟨fun _ h => absurd h (by simp), ?_⟩
      intro _
      rw [dateFilter]
      simp only [List.mem_filter]
      constructor
      · rintro ⟨h1, h2⟩
        cases hpd : parse r.date with
        | none => rw [hpd] at h2; exact absurd h2 (by simp)
        | some d =>
          rw [hpd] at h2
          refine ⟨h1, d, rfl, fun l hl => absurd hl (by simp), ?_⟩
          intro u' hu'
          cases hu'
          exact of_decide_eq_true h2
      · rintro ⟨h1, d, hpd, _, hup⟩
        refine ⟨h1, ?_⟩
        rw [hpd]
        exact decide_eq_true (hup u rfl)
  | some l =>
    cases hi with
    | none =>
      refine ⟨fun h => absurd h (by simp), ?_⟩
      intro _
      rw [dateFilter]
      simp only [List.mem_filter]
      constructor
      · rintro ⟨h1, h2⟩
        cases hpd : parse r.date with
        | none => rw [hpd] at h2; exact absurd h2 (by simp)
        | some d =>
          rw [hpd] at h2
          refine ⟨h1, d, rfl, ?_, fun u hu => absurd hu (by simp)⟩
          intro l' hl'
          cases hl'
          exact of_decide_eq_true h2
      · rintro ⟨h1, d, hpd, hlo, _⟩
        refine ⟨h1, ?_⟩
        rw [hpd]
        exact decide_eq_true (hlo l rfl)
    | some u =>
      refine ⟨fun h => absurd h (by simp), ?_⟩
      intro _
      rw [dateFilter]
      simp only [List.mem_filter]
      constructor
      · rintro ⟨⟨h1, h2⟩, h3⟩
        cases hpd : parse r.date with
        | none => rw [hpd] at h2; exact absurd h2 (by simp)
        | some d =>
          rw [hpd] at h2
          rw [hpd] at h3
          refine ⟨h1, d, rfl, ?_, ?_⟩
          · intro l' hl'
            cases hl'
            exact of_decide_eq_true h2
          · intro u' hu'
            cases hu'
            exact of_decide_eq_true h3
      · rintro ⟨h1, d, hpd, hlo, hup⟩
        refine ⟨⟨h1, ?_⟩, ?_⟩ <;> rw [hpd]
        · exact decide_eq_true (hlo l rfl)
        · exact decide_eq_true (hup u rfl)

/-- Witness for C4: a row with a parseable in-range date passes the
filter while the bounds are active. -/
theorem date_filter_witness :
    rowX ∈ dateFilter parse0 (some 1) (some 3) [rowX, rowB] := by
  have h := (date_filter_spec parse0 (some 1) (some 3) [rowX, rowB] rowX).2
    (Or.inl (by simp))
  refine h.mpr ⟨List.mem_cons_self _ _, 2, by decide, ?_, ?_⟩
  · intro l hl
    injection hl with he
    omega
  · intro u hu
    injection hu with he
    omega

/-- C5: `extract_keywords` filters the Hangul tokens (runs of at least two
Hangul word characters) through the stop-word set, counts frequencies in
first-encounter order, and joins the top `n` terms of the stable
descending-by-count sort with `", "`; when no token survives it returns
the "no keywords" sentinel.  The sort is genuinely descending by count
(pairwise), breaks ties by first-encounter order (the rows of any fixed
count keep their original order), and is a permutation of the counter
items. -/
theorem extract_keywords_spec (text : String) (n : Nat) :
    extract_keywords text n
      = (if (keywordTokens text).isEmpty then "키워드 없음"
         else joinWith ", "
           (((sortDesc (counterItems (keywordTokens text))).take n).map Prod.fst))
    ∧ List.Pairwise (fun a b => b.2 ≤ a.2) (sortDesc (counterItems (keywordTokens text)))
    ∧ (∀ c : Nat,
        (sortDesc (counterItems (keywordTokens text))).filter (fun p => p.2 == c)
          = (counterItems (keywordTokens text)).filter (fun p => p.2 == c))
    ∧ (sortDesc (counterItems (keywordTokens text))).Perm
        (counterItems (keywordTokens text)) := by
  refine ⟨rfl, sortDesc_pairwise _, fun c => sortDesc_filter _, sortDesc_perm _⟩

/-- Witness for C5 at a concrete Korean text with a repeated keyword. -/
theorem extract_keywords_witness :
    extract_keywords "인공지능 기술과 인공지능 산업" 5
      = (if (keywordTokens "인공지능 기술과 인공지능 산업").isEmpty then "키워드 없음"
         else joinWith ", "
           (((sortDesc (counterItems (keywordTokens "인공지능 기술과 인공지능 산업"))).take 5).map
             Prod.fst)) :=
  (extract_keywords_spec "인공지능 기술과 인공지능 산업" 5).1

/-- C6: a fetch never returns more rows than the requested cap, and on a
successful (status 200) response it returns exactly the first `maxItems`
feed entries mapped through per-entry processing, in feed order with no
re-sorting (in particular the row titles are the entry titles in order). -/
theorem fetch_cap_spec (keyword : String) (resp : FetchResponse) (maxItems : Nat)
    (nowStr : String) :
    ((fetch_news keyword resp maxItems nowStr).1).length ≤ maxItems
    ∧ (∀ status entries, resp = FetchResponse.success status entries → status = 200 →
        (fetch_news keyword resp maxItems nowStr).1
          = (entries.take maxItems).map (processEntry keyword nowStr))
    ∧ (∀ status entries, resp = FetchResponse.success status entries → status = 200 →
        ((fetch_news keyword resp maxItems nowStr).1).map Row.title
          = (entries.take maxItems).map FeedEntry.title) := by
  refine ⟨?_, ?_, ?_⟩
  · cases resp with
    | failure msg => simp [fetch_news]
    | success status entries =>
      rw [fetch_news]
      by_cases h : status ≠ 200
      · rw [if_pos h]
        simp
      · rw [if_neg h]
        simp only [List.length_map, List.length_take]
        omega
  · intro status entries heq h200
    subst heq
    rw [fetch_news, if_neg (by simp [h200])]
  · intro status entries heq h200
    subst heq
    rw [fetch_news, if_neg (by simp [h200])]
    simp only [List.map_map]
    rfl

/-- Witness for C6 at a concrete 200 response with one entry. -/
theorem fetch_cap_witness :
    (fetch_news "AI" (FetchResponse.success 200 [entry0]) 3 "2025-10-12").1
      = ([entry0].take 3).map (processEntry "AI" "2025-10-12") :=
  (fetch_cap_spec "AI" (FetchResponse.success 200 [entry0]) 3 "2025-10-12").2.1
    200 [entry0] rfl rfl

/-- C7: the stored link of a processed entry is the de-referenced link;
a link not wrapped by the feed redirect (or wrapped but without an
extractable embedded `url` parameter) is kept verbatim, and a wrapped
link with an embedded `url` parameter resolves to the embedded URL. -/
theorem link_extraction_spec (e : FeedEntry) (k now : String) :
    (processEntry k now e).link = extractLink e.link
    ∧ (googleWrapped e.link = false → extractLink e.link = e.link)
    ∧ (∀ u, googleWrapped e.link = true → urlParamOf e.link = some u →
        extractLink e.link = u)
    ∧ (googleWrapped e.link = true → urlParamOf e.link = none →
        extractLink e.link = e.link) := by
  refine ⟨rfl, ?_, ?_, ?_⟩
  · intro h
    rw [extractLink, if_neg (bool_ne_true h)]
  · intro u hw hp
    rw [extractLink, if_pos hw, hp]
  · intro hw hp
    rw [extractLink, if_pos hw, hp]

/-- Witness for C7: a concrete Google-News-wrapped link resolves to its
embedded URL. -/
theorem link_extraction_witness :
    extractLink gnewsLink = "https://example.com/story" :=
  (link_extraction_spec ⟨"제목", gnewsLink, none, none⟩ "AI" "2025-10-12").2.2.1
    "https://example.com/story" (by decide) (by decide)

/-- C8 (counterexample): the claim says every network failure yields an
empty result "together with a warning", but on a non-success HTTP status
the code returns an empty frame silently: at status 404 the result is
empty and the emitted message list is empty as well. -/
theorem fetch_failure_counterexample :
    (fetch_news "AI" (FetchResponse.success 404 [entry0]) 3 "2025-10-12").1 = []
    ∧ (fetch_news "AI" (FetchResponse.success 404 [entry0]) 3 "2025-10-12").2 = [] := by
  refine ⟨rfl, rfl⟩

/-- C8 (amended): a raised transport error (timeout, connection error)
yields an empty result for that keyword together with an error message; a
non-success HTTP status yields an empty result silently; in either case
nothing aborts the run — the collection loop still processes every
remaining keyword in order. -/
theorem fetch_failure_amended_spec (keyword : String) (maxItems : Nat)
    (nowStr : String) :
    (∀ msg, fetch_news keyword (FetchResponse.failure msg) maxItems nowStr
      = ([], ["뉴스 수집 실패: " ++ msg]))
    ∧ (∀ status entries, status ≠ 200 →
        fetch_news keyword (FetchResponse.success status entries) maxItems nowStr
          = ([], []))
    ∧ (∀ (net : String → FetchResponse) (ks : List String),
        keywordRows (keyword :: ks) net maxItems nowStr
          = (fetch_news keyword (net keyword) maxItems nowStr).1
              :: keywordRows ks net maxItems nowStr) := by
  refine ⟨fun msg => rfl, ?_, fun net ks => rfl⟩
  intro status entries h
  rw [fetch_news, if_pos h]

/-- Witness for the amended C8 theorem at a concrete 500 status. -/
theorem fetch_failure_amended_witness :
    fetch_news "AI" (FetchResponse.success 500 []) 3 "2025-10-12" = ([], []) :=
  (fetch_failure_amended_spec "AI" 3 "2025-10-12").2.1 500 [] (by decide)

/-- C9: every enrichment function is a pure function of its input text in
this embedding — recomputing the bundle of derived fields gives an equal
result, the derived fields of a processed entry are exactly the
enrichment bundle of its fulltext, and two entries with equal fulltext
get equal derived fields regardless of keyword or fetch time. -/
theorem enrichment_deterministic (text : String) :
    enrichFields text = enrichFields text
    ∧ (∀ e k now, derivedOf (processEntry k now e) = enrichFields (fulltextOf e))
    ∧ (∀ (e1 e2 : FeedEntry) (k1 k2 n1 n2 : String),
        fulltextOf e1 = fulltextOf e2 →
        derivedOf (processEntry k1 n1 e1) = derivedOf (processEntry k2 n2 e2)) := by
  have hbundle : ∀ e k now,
      derivedOf (processEntry k now e) = enrichFields (fulltextOf e) := by
    intro e k now
    simp only [derivedOf, processEntry, enrichFields]
  refine ⟨rfl, hbundle, ?_⟩
  intro e1 e2 k1 k2 n1 n2 h
  rw [hbundle, hbundle, h]

/-- Witness for C9: the derived fields agree across keyword and time. -/
theorem enrichment_deterministic_witness :
    derivedOf (processEntry "AI" "2025-10-12" entry0)
      = derivedOf (processEntry "로봇" "2025-10-13" entry0) :=
  (enrichment_deterministic "").2.2 entry0 entry0 "AI" "로봇" "2025-10-12" "2025-10-13" rfl

/-- C10: on any text without two consecutive Hangul syllables — in
particular any purely ASCII or English text — the tokenizer of
`extract_keywords` finds no token, so the function returns the
"no keywords" sentinel. -/
theorem ascii_keywords_sentinel (text : String)
    (h : hasHangulPair text.data = false) :
    extract_keywords text 5 = "키워드 없음" := by
  have hruns : ∀ t ∈ hangulRunsAux [] text.data, t.length ≤ 1 :=
    hangulRunsAux_short text.data [] h (by simp)
      (by intro d ds _ hne; exact absurd rfl hne)
  have hfil : (hangulRunsAux [] text.data).filter (fun r => 2 ≤ r.length) = [] := by
    rw [List.filter_eq_nil_iff]
    intro a ha
    have := hruns a ha
    simp only [decide_eq_true_eq]
    omega
  have htok : hangulTokens text = [] := by
    rw [hangulTokens, hfil]
    rfl
  rw [extract_keywords]
  have hkw : keywordTokens text = [] := by
    rw [keywordTokens, htok]
    rfl
  rw [hkw]
  rfl

/-- Witness for C10 at a concrete English sentence. -/
theorem ascii_keywords_witness :
    extract_keywords "The quick brown fox jumps over the lazy dog" 5 = "키워드 없음" :=
  ascii_keywords_sentinel "The quick brown fox jumps over the lazy dog" (by decide)
